import Mathlib

/-
Shallow embedding of the git change-detection engine of
`src/aider_wrapper.py` (the body of `main`, lines 44-148).

The engine takes two `git status --porcelain` snapshots (each a set of
stripped status lines), computes the set differences, builds change
records from the newly appearing lines, and then appends `deleted`
records for vanished lines that pass a suppression check.

Filesystem and git-backend effects (`os.path.exists`, `open`/`read`,
`repo.git.diff`) are modelled by an explicit environment `FS` mapping the
relative path to the observed outcome.  A diff attempt that raises
`git.GitCommandError` (the failure mode of the `repo.git.diff` backend,
the spec's `DiffUnavailable`) is modelled as `none`; a file read that
raises is modelled as `Except.error msg`, matching the
`f"Error reading file: {read_err}"` handler in the source.
-/

deriving instance DecidableEq for Except

namespace AiderWrapper

/-- Python `str.split` / `str.strip` whitespace characters. -/
def isSpace (c : Char) : Bool :=
  c == ' ' || c == '\t' || c == '\n' || c == '\r' || c == '\x0b' || c == '\x0c'

/-- Python `str.strip()` on a character list. -/
def pyStripList (l : List Char) : List Char :=
  ((l.dropWhile isSpace).reverse.dropWhile isSpace).reverse

/-- Python `str.strip()`. -/
def pyStrip (s : String) : String :=
  ⟨pyStripList s.toList⟩

/--
Python `line.split(maxsplit=1)` as used at lines 56-60 and 126-130 of the
source: `none` models the `len(parts) < 2` case (the loop `continue`s),
`some (code, rest)` the two-part case.  `rest` is the remainder after the
first whitespace run following the first token, as Python produces it.
-/
def splitMax1 (s : String) : Option (String × String) :=
  let cs := s.toList.dropWhile isSpace
  let tok := cs.takeWhile (fun c => !isSpace c)
  let rest := (cs.dropWhile (fun c => !isSpace c)).dropWhile isSpace
  if tok = [] then none
  else if rest = [] then none
  else some (⟨tok⟩, ⟨rest⟩)

/-- Python `line.startswith('??')` (line 125 of the source). -/
def startsQQ (s : String) : Bool :=
  match s.toList with
  | '?' :: '?' :: _ => true
  | _ => false

/--
Quote stripping (lines 62-63 / 131-132 of the source):
`if filepath.startswith('"') and filepath.endswith('"'): filepath = filepath[1:-1]`.
-/
def stripQuotes (s : String) : String :=
  match s.toList with
  | '"' :: cs => if cs = [] ∨ cs.getLast? = some '"' then ⟨cs.dropLast⟩ else s
  | _ => s

/-- The characters of the rename marker `" -> "`. -/
def sepChars : List Char := [' ', '-', '>', ' ']

/--
First occurrence of the rename marker `" -> "` in a character list:
`some (pre, post)` with `l = pre ++ sepChars ++ post` at the leftmost
occurrence, `none` when the marker does not occur.  This is the engine
behind Python's `' -> ' in filepath` and `filepath.split(' -> ')`.
-/
def arrowSplitFirst : List Char → Option (List Char × List Char)
  | [] => none
  | c :: cs =>
    if (c :: cs).take 4 = sepChars then some ([], cs.drop 3)
    else (arrowSplitFirst cs).map (fun p => (c :: p.1, p.2))

/-- Python `' -> ' in s`. -/
def hasArrow (s : String) : Bool :=
  (arrowSplitFirst s.toList).isSome

/-- Python `s.split(' -> ')[0]`: the segment before the first marker. -/
def arrowLeft (s : String) : String :=
  match arrowSplitFirst s.toList with
  | some p => ⟨p.1⟩
  | none => s

/--
Python `s.split(' -> ')[1]`: the segment between the first and the second
occurrence of the marker (or everything after the first occurrence when
there is no second one).
-/
def arrowRight (s : String) : String :=
  match arrowSplitFirst s.toList with
  | some p =>
    match arrowSplitFirst p.2 with
    | some q => ⟨q.1⟩
    | none => ⟨p.2⟩
  | none => s

/-- The `change_type` values the source assigns (the string literals
`"added"`, `"modified"`, `"deleted"`; `"unknown"` records are never
appended, modelled by `Option ChangeType`). -/
inductive ChangeType
  | added
  | modified
  | deleted
deriving DecidableEq, Repr

/-- One element of the source's `file_changes` list (lines 116-122 and
141-147).  The constant `"type": "file_change"` field is omitted. -/
structure ChangeRecord where
  filename : String
  change_type : ChangeType
  content : Option String
  diff : Option String
deriving DecidableEq, Repr

/--
Environment for the effects the engine performs, keyed by the relative
`filepath` (joining with the fixed `repo_root` is a bijection on paths, so
the relative path is the key):
* `pathExists p` — `os.path.exists(full_path)`;
* `readFile p` — `open(full_path).read()`: `ok text`, or `error msg` when
  the read raises (the source then stores `"Error reading file: " ++ msg`);
* `diffHead p` — `repo.git.diff('HEAD', '--', filepath)`: `some text`, or
  `none` when it raises `git.GitCommandError`;
* `diffStaged p` — `repo.git.diff('--staged', '--', filepath)`, likewise.
-/
structure FS where
  pathExists : String → Bool
  readFile : String → Except String String
  diffHead : String → Option String
  diffStaged : String → Option String

/--
Status-code classification of the appeared loop (lines 75, 87, 111 of the
source): `'??'` exactly means added, a code starting with `M` or `A` means
modified, a code starting with `D` means deleted, anything else is skipped
(`change_type` stays `"unknown"`).
-/
def classify (code : String) : Option ChangeType :=
  if code = "??" then some ChangeType.added
  else if code.toList.take 1 = ['M'] ∨ code.toList.take 1 = ['A'] then some ChangeType.modified
  else if code.toList.take 1 = ['D'] then some ChangeType.deleted
  else none

/-- Path normalisation of the appeared loop (lines 60-67): strip, strip one
pair of surrounding quotes, and on a rename marker take the right-hand
(new) path, `filepath.split(' -> ')[1]`. -/
def appearedPath (rest : String) : String :=
  let fp := stripQuotes (pyStrip rest)
  if hasArrow fp then arrowRight fp else fp

/-- Path normalisation of the vanished loop (lines 130-134): strip, strip
quotes, and on a rename marker take the left-hand (original) path,
`filepath.split(' -> ')[0]`. -/
def vanishedPathOf (rest : String) : String :=
  let fp := stripQuotes (pyStrip rest)
  if hasArrow fp then arrowLeft fp else fp

/-- Content resolution for an added (`'??'`) entry, lines 77-86: read the
file when it exists, degrade a read fault to an error string, `none` when
the file does not exist.  `diff` is never touched for added entries. -/
def resolveAdded (fs : FS) (fp : String) : Option String :=
  if fs.pathExists fp then
    match fs.readFile fp with
    | Except.ok c => some c
    | Except.error e => some ("Error reading file: " ++ e)
  else none

/-- The nested diff fallback of lines 94-103: diff against `HEAD`; on
`GitCommandError` diff against the staged index; on failure again, null. -/
def diffPolicy (fs : FS) (fp : String) : Option String :=
  match fs.diffHead fp with
  | some t => some t
  | none => fs.diffStaged fp

/-- Content and diff resolution for a modified entry, lines 88-109: when
the file exists and reads cleanly, content is its text and the diff
fallback runs; a read fault yields an error-string content and no diff
attempt; a missing file yields `(none, none)`. -/
def resolveModified (fs : FS) (fp : String) : Option String × Option String :=
  if fs.pathExists fp then
    match fs.readFile fp with
    | Except.ok c => (some c, diffPolicy fs fp)
    | Except.error e => (some ("Error reading file: " ++ e), none)
  else (none, none)

/--
One iteration of the appeared loop (lines 55-122): parse the line, skip it
when it has fewer than two tokens or an unhandled status code, otherwise
build the change record appended to `file_changes`.
-/
def processAppeared (fs : FS) (line : String) : Option ChangeRecord :=
  match splitMax1 line with
  | none => none
  | some (code, rest) =>
    let fp := appearedPath rest
    match classify code with
    | some ChangeType.added =>
      some ⟨fp, ChangeType.added, resolveAdded fs fp, none⟩
    | some ChangeType.modified =>
      let cd := resolveModified fs fp
      some ⟨fp, ChangeType.modified, cd.1, cd.2⟩
    | some ChangeType.deleted =>
      some ⟨fp, ChangeType.deleted, none, none⟩
    | none => none

/--
The path a vanished line contributes to deletion bookkeeping
(lines 124-134): `none` when the line starts with `'??'` or parses to
fewer than two tokens (the loop skips it), otherwise the normalised
left-of-arrow path.  The first token is bound (`status_code`) but never
used by the source's vanished loop.
-/
def vanishedPath (line : String) : Option String :=
  if startsQQ line then none
  else
    match splitMax1 line with
    | none => none
    | some (_, rest) => some (vanishedPathOf rest)

/--
One iteration of the vanished loop (lines 124-147): emit a `deleted`
record when the file no longer exists and no non-deleted record for the
same filename is already in `file_changes` (the source's `is_in_changed`
check, line 139).
-/
def stepVanished (fs : FS) (acc : List ChangeRecord) (line : String) : List ChangeRecord :=
  match vanishedPath line with
  | none => acc
  | some fp =>
    let inChanged := acc.any (fun fc => fc.filename == fp && fc.change_type != ChangeType.deleted)
    if !fs.pathExists fp && !inChanged then
      acc ++ [⟨fp, ChangeType.deleted, none, none⟩]
    else acc

/-- Set difference of status-line snapshots, lines 49-53 of the source
(Python `set` difference; the result is duplicate-free and iterated in an
implementation-defined order, here the order of `a`). -/
def setDiff (a b : List String) : List String :=
  a.dedup.filter (fun l => decide (l ∉ b))

/-- The records built by the appeared loop, in iteration order. -/
def appearedRecords (fs : FS) (before after : List String) : List ChangeRecord :=
  (setDiff after before).filterMap (processAppeared fs)

/-- The whole assembler (lines 49-147): appeared records first, then the
vanished pass folded over the vanished lines. -/
def assemble (fs : FS) (before after : List String) : List ChangeRecord :=
  List.foldl (stepVanished fs) (appearedRecords fs before after) (setDiff before after)

/-! ### Helper lemmas about the vanished pass -/

/-- One vanished-loop step appends either nothing or a single `deleted`
record with null content and diff whose filename has no non-deleted record
in the accumulator. -/
lemma stepVanished_shape (fs : FS) (acc : List ChangeRecord) (line : String) :
    ∃ d : List ChangeRecord, stepVanished fs acc line = acc ++ d ∧
      ∀ r ∈ d, r.change_type = ChangeType.deleted ∧ r.content = none ∧ r.diff = none ∧
        ∀ y ∈ acc, ¬(y.filename = r.filename ∧ y.change_type ≠ ChangeType.deleted) := by
  cases h : vanishedPath line with
  | none =>
    refine ⟨[], ?_, by simp⟩
    simp [stepVanished, h]
  | some fp =>
    by_cases hc : (!fs.pathExists fp
        && !(acc.any (fun fc => fc.filename == fp && fc.change_type != ChangeType.deleted))) = true
    · refine ⟨[⟨fp, ChangeType.deleted, none, none⟩], ?_, ?_⟩
      · simp [stepVanished, h, hc]
      · intro r hr
        simp only [List.mem_singleton] at hr
        subst hr
        refine ⟨rfl, rfl, rfl, ?_⟩
        rw [Bool.and_eq_true, Bool.not_eq_true', Bool.not_eq_true'] at hc
        intro y hy hcontra
        have hany := (List.any_eq_false.mp hc.2) y hy
        simp only [Bool.and_eq_true, beq_iff_eq, bne_iff_ne] at hany
        exact hany ⟨hcontra.1, hcontra.2⟩
    · refine ⟨[], ?_, by simp⟩
      simp only [Bool.not_eq_true] at hc
      simp [stepVanished, h, hc]

/-- Folding the vanished pass over any list of lines only appends `deleted`
records with null content and diff, none of which shares a filename with a
non-deleted record of the starting accumulator. -/
lemma foldl_stepVanished (fs : FS) (vs : List String) :
    ∀ acc : List ChangeRecord,
      ∃ ds : List ChangeRecord, List.foldl (stepVanished fs) acc vs = acc ++ ds ∧
        ∀ r ∈ ds, r.change_type = ChangeType.deleted ∧ r.content = none ∧ r.diff = none ∧
          ∀ y ∈ acc, ¬(y.filename = r.filename ∧ y.change_type ≠ ChangeType.deleted) := by
  induction vs with
  | nil =>
    intro acc
    exact ⟨[], by simp, by simp⟩
  | cons v vs ih =>
    intro acc
    obtain ⟨d, hd, hdp⟩ := stepVanished_shape fs acc v
    obtain ⟨ds, hds, hdsp⟩ := ih (stepVanished fs acc v)
    refine ⟨d ++ ds, ?_, ?_⟩
    · rw [List.foldl_cons, hds, hd, List.append_assoc]
    · intro r hr
      rcases List.mem_append.mp hr with h1 | h2
      · exact hdp r h1
      · have hprops := hdsp r h2
        refine ⟨hprops.1, hprops.2.1, hprops.2.2.1, ?_⟩
        intro y hy
        refine hprops.2.2.2 y ?_
        rw [hd]
        exact List.mem_append_left _ hy

/-! ### Helper lemmas about the appeared pass -/

/-- Shape of one appeared-loop record: an added record has a null diff, a
deleted record has null content and diff, and the filename is always the
normalised (right-of-arrow) path of the parsed line. -/
lemma processAppeared_shape (fs : FS) (line : String) (r : ChangeRecord)
    (h : processAppeared fs line = some r) :
    ∃ code rest, splitMax1 line = some (code, rest) ∧ r.filename = appearedPath rest ∧
      ((r.change_type = ChangeType.added ∧ r.diff = none) ∨
        r.change_type = ChangeType.modified ∨
        (r.change_type = ChangeType.deleted ∧ r.content = none ∧ r.diff = none)) := by
  cases hs : splitMax1 line with
  | none => simp [processAppeared, hs] at h
  | some pr =>
    obtain ⟨code, rest⟩ := pr
    refine ⟨code, rest, rfl, ?_⟩
    cases hc : classify code with
    | none => simp [processAppeared, hs, hc] at h
    | some ct =>
      cases ct with
      | added =>
        simp only [processAppeared, hs, hc, Option.some.injEq] at h
        subst h
        exact ⟨rfl, Or.inl ⟨rfl, rfl⟩⟩
      | modified =>
        simp only [processAppeared, hs, hc, Option.some.injEq] at h
        subst h
        exact ⟨rfl, Or.inr (Or.inl rfl)⟩
      | deleted =>
        simp only [processAppeared, hs, hc, Option.some.injEq] at h
        subst h
        exact ⟨rfl, Or.inr (Or.inr ⟨rfl, rfl, rfl⟩)⟩

/-- A modified record built from an appeared line whose file exists and
reads cleanly: content is the text read, diff follows the fallback policy. -/
lemma processAppeared_modified_ok (fs : FS) (line code rest t : String)
    (hsplit : splitMax1 line = some (code, rest))
    (hcl : classify code = some ChangeType.modified)
    (hex : fs.pathExists (appearedPath rest) = true)
    (hrd : fs.readFile (appearedPath rest) = Except.ok t) :
    processAppeared fs line =
      some ⟨appearedPath rest, ChangeType.modified, some t, diffPolicy fs (appearedPath rest)⟩ := by
  simp [processAppeared, hsplit, hcl, resolveModified, hex, hrd]

/-! ### Concrete environments used by witnesses and counterexamples -/

/-- An environment where no file exists, reads fail, and both diff
attempts fail — the state after files have been deleted. -/
def fsNone : FS :=
  ⟨fun _ => false, fun _ => Except.error "gone", fun _ => none, fun _ => none⟩

/-! ### Claims -/

/-- C1 (counterexample): with `before = {}` and
`after = {'M "a -> x"', 'D x'}` — a real snapshot pair: a modified file
literally named `a -> x`, which git quotes, and a deleted file `x` — the
quote-stripping plus arrow-splitting of the appeared loop gives the
modified record the filename `x`, and the D-coded appeared line yields a
deleted record for the same filename `x`.  So a path that obtains a
modified record from the appeared entries does not have exactly one
record, and a deleted record for the same filename is also present,
refuting the claim as stated. -/
theorem C1_cex :
    assemble fsNone [] ["M \"a -> x\"", "D x"] =
      [⟨"x", ChangeType.modified, none, none⟩, ⟨"x", ChangeType.deleted, none, none⟩] ∧
    (⟨"x", ChangeType.modified, none, none⟩ : ChangeRecord) ∈ assemble fsNone [] ["M \"a -> x\"", "D x"] ∧
    (⟨"x", ChangeType.deleted, none, none⟩ : ChangeRecord) ∈ assemble fsNone [] ["M \"a -> x\"", "D x"] := by
  decide

/-- C1 (amended): when a path obtains an added or modified record from the
appeared entries, the vanished pass contributes no record for that
filename: every record of the final ChangeSet with that filename was built
from an appeared entry.  (Appeared entries themselves may still contribute
a deleted record for the same filename, from a D-coded line.) -/
theorem C1_thm (fs : FS) (before after : List String) (r s : ChangeRecord)
    (hr : r ∈ appearedRecords fs before after) (hnd : r.change_type ≠ ChangeType.deleted)
    (hs : s ∈ assemble fs before after) (hname : s.filename = r.filename) :
    s ∈ appearedRecords fs before after := by
  obtain ⟨ds, heq, hds⟩ :=
    foldl_stepVanished fs (setDiff before after) (appearedRecords fs before after)
  simp only [assemble] at hs
  rw [heq] at hs
  rcases List.mem_append.mp hs with h1 | h2
  · exact h1
  · exact absurd ⟨hname.symm, hnd⟩ ((hds s h2).2.2.2 r hr)

/-- C1 witness: a modified record for `x` built from the appeared entries,
with every record for `x` coming from the appeared set. -/
theorem C1_witness :
    (⟨"x", ChangeType.modified, none, none⟩ : ChangeRecord) ∈ appearedRecords fsNone [] ["M x"] :=
  C1_thm fsNone [] ["M x"] ⟨"x", ChangeType.modified, none, none⟩
    ⟨"x", ChangeType.modified, none, none⟩ (by decide) (by decide) (by decide) rfl

/-- C3: every record of an assembled ChangeSet whose change type is
deleted — whether built from a D-coded appeared entry or by the vanished
pass — has null content and null diff. -/
theorem C3_thm (fs : FS) (before after : List String) (r : ChangeRecord)
    (hr : r ∈ assemble fs before after) (hd : r.change_type = ChangeType.deleted) :
    r.content = none ∧ r.diff = none := by
  obtain ⟨ds, heq, hds⟩ :=
    foldl_stepVanished fs (setDiff before after) (appearedRecords fs before after)
  simp only [assemble] at hr
  rw [heq] at hr
  rcases List.mem_append.mp hr with h1 | h2
  · obtain ⟨line, hline, hp⟩ := List.mem_filterMap.mp h1
    obtain ⟨code, rest, hsp, hf, hshape⟩ := processAppeared_shape fs line r hp
    rcases hshape with ⟨ha, _⟩ | hm | ⟨_, hc2, hd2⟩
    · simp [ha] at hd
    · simp [hm] at hd
    · exact ⟨hc2, hd2⟩
  · exact ⟨(hds r h2).2.1, (hds r h2).2.2.1⟩

/-- C3 witness: the deleted record built from the appeared entry `D x`. -/
theorem C3_witness :
    (⟨"x", ChangeType.deleted, none, none⟩ : ChangeRecord).content = none ∧
    (⟨"x", ChangeType.deleted, none, none⟩ : ChangeRecord).diff = none :=
  C3_thm fsNone [] ["D x"] ⟨"x", ChangeType.deleted, none, none⟩ (by decide) rfl

/-- C4: when the two snapshots contain exactly the same set of lines, both
set differences are empty and the assembled ChangeSet is empty. -/
theorem C4_thm (fs : FS) (before after : List String)
    (h : ∀ l : String, l ∈ before ↔ l ∈ after) :
    assemble fs before after = [] := by
  have h1 : setDiff after before = [] := by
    simp only [setDiff, List.filter_eq_nil_iff]
    intro l hl
    simp only [decide_eq_true_eq, Decidable.not_not]
    exact (h l).mpr (List.mem_dedup.mp hl)
  have h2 : setDiff before after = [] := by
    simp only [setDiff, List.filter_eq_nil_iff]
    intro l hl
    simp only [decide_eq_true_eq, Decidable.not_not]
    exact (h l).mp (List.mem_dedup.mp hl)
  simp [assemble, appearedRecords, h1, h2]

/-- C4 witness: identical one-line snapshots assemble to the empty
ChangeSet. -/
theorem C4_witness : assemble fsNone ["M x"] ["M x"] = [] :=
  C4_thm fsNone ["M x"] ["M x"] (fun _ => Iff.rfl)

/-- C10: the suppression check of the vanished pass ignores deleted
records, so a path vanishing as `M x` while `D x` appears, with the file
gone from disk, produces two deleted records for the same filename. -/
theorem C10_thm :
    assemble fsNone ["M x"] ["D x"] =
      [⟨"x", ChangeType.deleted, none, none⟩, ⟨"x", ChangeType.deleted, none, none⟩] := by
  decide

/-- C2: one vanished-pass step over an accumulator made of the appeared
records `fcs` plus previously emitted deleted records `ds` appends exactly
one deleted record — with null content and diff — for the entry's
normalised path if and only if the status code is not `??`, the file no
longer exists, and no added/modified record for that path is among the
appeared records; otherwise it appends nothing.  The hypothesis `hqq`
links the line-level `startswith('??')` test the source performs to the
entry's status code (it holds for every well-formed status line, whose
first token is its code). -/
theorem C2_thm (fs : FS) (fcs ds : List ChangeRecord)
    (hds : ∀ r ∈ ds, r.change_type = ChangeType.deleted)
    (line code rest : String)
    (hsplit : splitMax1 line = some (code, rest))
    (hqq : startsQQ line = (code == "??")) :
    stepVanished fs (fcs ++ ds) line =
      if code ≠ "??" ∧ fs.pathExists (vanishedPathOf rest) = false ∧
          ∀ r ∈ fcs, ¬(r.filename = vanishedPathOf rest ∧ r.change_type ≠ ChangeType.deleted)
      then (fcs ++ ds) ++ [⟨vanishedPathOf rest, ChangeType.deleted, none, none⟩]
      else fcs ++ ds := by
  by_cases hc : code = "??"
  · subst hc
    have hq : startsQQ line = true := by simp [hqq]
    rw [if_neg (by simp)]
    simp [stepVanished, vanishedPath, hq]
  · have hq : startsQQ line = false := by simp [hqq, hc]
    have hv : vanishedPath line = some (vanishedPathOf rest) := by
      simp [vanishedPath, hq, hsplit]
    set fp := vanishedPathOf rest with hfp
    have hdsany :
        ds.any (fun fc => fc.filename == fp && fc.change_type != ChangeType.deleted) = false := by
      apply List.any_eq_false.mpr
      intro x hx
      simp [hds x hx]
    simp only [stepVanished, hv]
    rw [List.any_append, hdsany, Bool.or_false]
    by_cases he : fs.pathExists fp = true
    · have hcond : ¬(code ≠ "??" ∧ fs.pathExists fp = false ∧
          ∀ r ∈ fcs, ¬(r.filename = fp ∧ r.change_type ≠ ChangeType.deleted)) := by
        rintro ⟨-, h2, -⟩
        rw [he] at h2
        exact Bool.noConfusion h2
      rw [if_neg hcond]
      simp [he]
    · have he' : fs.pathExists fp = false := by
        revert he
        cases fs.pathExists fp <;> simp
      by_cases ha :
          fcs.any (fun fc => fc.filename == fp && fc.change_type != ChangeType.deleted) = true
      · have hcond : ¬(code ≠ "??" ∧ fs.pathExists fp = false ∧
            ∀ r ∈ fcs, ¬(r.filename = fp ∧ r.change_type ≠ ChangeType.deleted)) := by
          rintro ⟨-, -, hall⟩
          obtain ⟨x, hx, hpx⟩ := List.any_eq_true.mp ha
          simp only [Bool.and_eq_true, beq_iff_eq, bne_iff_ne] at hpx
          exact hall x hx ⟨hpx.1, hpx.2⟩
        rw [if_neg hcond]
        simp [he', ha]
      · have ha' :
            fcs.any (fun fc => fc.filename == fp && fc.change_type != ChangeType.deleted)
              = false := by
          revert ha
          cases fcs.any (fun fc => fc.filename == fp && fc.change_type != ChangeType.deleted) <;>
            simp
        have hcond : code ≠ "??" ∧ fs.pathExists fp = false ∧
            ∀ r ∈ fcs, ¬(r.filename = fp ∧ r.change_type ≠ ChangeType.deleted) := by
          refine ⟨hc, he', ?_⟩
          intro r hr hcon
          have hpr := List.any_eq_false.mp ha' r hr
          simp only [Bool.and_eq_true, beq_iff_eq, bne_iff_ne] at hpr
          exact hpr ⟨hcon.1, hcon.2⟩
        rw [if_pos hcond]
        simp [he', ha']

/-- C2 witness: the vanished entry `M y.txt` with the file gone from disk
and an empty appeared set yields exactly the one deleted record with null
content and diff. -/
theorem C2_witness :
    stepVanished fsNone [] "M y.txt" = [⟨"y.txt", ChangeType.deleted, none, none⟩] := by
  have h := C2_thm fsNone [] [] (by simp) "M y.txt" "M" "y.txt" (by decide) (by decide)
  rw [if_pos ⟨by decide, by decide, by simp⟩] at h
  have hv : vanishedPathOf "y.txt" = "y.txt" := by decide
  rw [hv] at h
  exact h

/-- The environment of the spec's `x.txt` scenario: only `x.txt` exists
and it reads as `"hi"`. -/
def fs5 : FS :=
  ⟨fun p => p == "x.txt",
   fun p => if p == "x.txt" then Except.ok "hi" else Except.error "missing",
   fun _ => none, fun _ => none⟩

/-- C5: an appeared entry with code `??` yields exactly one record — added,
null diff, content the file's text when it exists and reads cleanly; such
a record reaches the final ChangeSet whenever its line genuinely appeared;
and the concrete scenario before = {}, after = {`?? x.txt`} with `x.txt`
containing `hi` assembles to exactly that single record. -/
theorem C5_thm :
    (∀ (fs : FS) (line rest t : String), splitMax1 line = some ("??", rest) →
        fs.pathExists (appearedPath rest) = true →
        fs.readFile (appearedPath rest) = Except.ok t →
        processAppeared fs line = some ⟨appearedPath rest, ChangeType.added, some t, none⟩) ∧
    (∀ (fs : FS) (before after : List String) (line rest t : String),
        line ∈ after → line ∉ before →
        splitMax1 line = some ("??", rest) →
        fs.pathExists (appearedPath rest) = true →
        fs.readFile (appearedPath rest) = Except.ok t →
        (⟨appearedPath rest, ChangeType.added, some t, none⟩ : ChangeRecord) ∈
          assemble fs before after) ∧
    assemble fs5 [] ["?? x.txt"] = [⟨"x.txt", ChangeType.added, some "hi", none⟩] := by
  have hgen : ∀ (fs : FS) (line rest t : String), splitMax1 line = some ("??", rest) →
      fs.pathExists (appearedPath rest) = true →
      fs.readFile (appearedPath rest) = Except.ok t →
      processAppeared fs line = some ⟨appearedPath rest, ChangeType.added, some t, none⟩ := by
    intro fs line rest t hs he hr
    have hcl : classify "??" = some ChangeType.added := rfl
    simp [processAppeared, hs, hcl, resolveAdded, he, hr]
  refine ⟨hgen, ?_, by decide⟩
  intro fs before after line rest t hin hnotin hs he hr
  have hmem : line ∈ setDiff after before := by
    simp [setDiff, List.mem_filter, List.mem_dedup, hin, hnotin]
  have hrec : (⟨appearedPath rest, ChangeType.added, some t, none⟩ : ChangeRecord) ∈
      appearedRecords fs before after :=
    List.mem_filterMap.mpr ⟨line, hmem, hgen fs line rest t hs he hr⟩
  obtain ⟨ds, heq, -⟩ :=
    foldl_stepVanished fs (setDiff before after) (appearedRecords fs before after)
  simp only [assemble]
  rw [heq]
  exact List.mem_append_left _ hrec

/-- C5 witness: the `?? x.txt` entry in the `fs5` environment. -/
theorem C5_witness :
    processAppeared fs5 "?? x.txt" =
      some ⟨appearedPath "x.txt", ChangeType.added, some "hi", none⟩ :=
  C5_thm.1 fs5 "?? x.txt" "x.txt" "hi" (by decide) (by decide) (by decide)

/-- Environment for the C6 counterexample: `x` exists but reading it
raises, while the diff against `HEAD` succeeds. -/
def fs6 : FS :=
  ⟨fun p => p == "x",
   fun _ => Except.error "denied",
   fun p => if p == "x" then some "DIFF" else none,
   fun _ => none⟩

/-- C6 (counterexample): for the modified entry `M x` whose file exists
but whose read raises, the source never reaches the diff attempts: the
record's diff is null even though the diff against the reference commit
succeeds (`diffPolicy` would give `some "DIFF"`), refuting the claim that
the diff field always equals the successful head-diff result. -/
theorem C6_cex :
    processAppeared fs6 "M x" =
      some ⟨"x", ChangeType.modified, some "Error reading file: denied", none⟩ ∧
    diffPolicy fs6 "x" = some "DIFF" ∧
    (⟨"x", ChangeType.modified, some "Error reading file: denied", none⟩ : ChangeRecord).diff ≠
      diffPolicy fs6 "x" := by
  decide

/-- C6 (amended): for a modified entry whose file exists and reads
cleanly, the diff field follows the fallback policy: the head-diff result
when that succeeds, otherwise the staged-diff result, which is null when
that also fails. -/
theorem C6_thm (fs : FS) (line code rest t : String)
    (hsplit : splitMax1 line = some (code, rest))
    (hcl : classify code = some ChangeType.modified)
    (hex : fs.pathExists (appearedPath rest) = true)
    (hrd : fs.readFile (appearedPath rest) = Except.ok t) :
    processAppeared fs line =
      some ⟨appearedPath rest, ChangeType.modified, some t, diffPolicy fs (appearedPath rest)⟩ ∧
    (∀ d, fs.diffHead (appearedPath rest) = some d →
      diffPolicy fs (appearedPath rest) = some d) ∧
    (fs.diffHead (appearedPath rest) = none →
      diffPolicy fs (appearedPath rest) = fs.diffStaged (appearedPath rest)) := by
  refine ⟨processAppeared_modified_ok fs line code rest t hsplit hcl hex hrd, ?_, ?_⟩
  · intro d hd
    simp [diffPolicy, hd]
  · intro hd
    simp [diffPolicy, hd]

/-- An environment where `x` exists, reads cleanly and the head diff
succeeds. -/
def fs6w : FS :=
  ⟨fun p => p == "x",
   fun p => if p == "x" then Except.ok "text" else Except.error "m",
   fun p => if p == "x" then some "DIFF" else none,
   fun _ => none⟩

/-- C6 witness: the amended diff policy at the `M x` entry in `fs6w`. -/
theorem C6_witness :
    processAppeared fs6w "M x" =
      some ⟨appearedPath "x", ChangeType.modified, some "text", diffPolicy fs6w (appearedPath "x")⟩ :=
  (C6_thm fs6w "M x" "M" "x" "text" (by decide) (by decide) (by decide) (by decide)).1

/-- C7: for a modified entry whose file was read successfully, diff
failures degrade only the diff field — the record is still produced with
content equal to the text read, and when both diff attempts fail the diff
is null; no fault is propagated (a record is always returned). -/
theorem C7_thm (fs : FS) (line code rest t : String)
    (hsplit : splitMax1 line = some (code, rest))
    (hcl : classify code = some ChangeType.modified)
    (hex : fs.pathExists (appearedPath rest) = true)
    (hrd : fs.readFile (appearedPath rest) = Except.ok t) :
    processAppeared fs line =
      some ⟨appearedPath rest, ChangeType.modified, some t, diffPolicy fs (appearedPath rest)⟩ ∧
    (fs.diffHead (appearedPath rest) = none → fs.diffStaged (appearedPath rest) = none →
      processAppeared fs line = some ⟨appearedPath rest, ChangeType.modified, some t, none⟩) := by
  have h := processAppeared_modified_ok fs line code rest t hsplit hcl hex hrd
  refine ⟨h, ?_⟩
  intro hh hs
  rw [h]
  simp [diffPolicy, hh, hs]

/-- An environment where `x` exists and reads cleanly but both diff
attempts fail. -/
def fs7w : FS :=
  ⟨fun p => p == "x",
   fun p => if p == "x" then Except.ok "body" else Except.error "m",
   fun _ => none, fun _ => none⟩

/-- C7 witness: both diff attempts fail for `M x`, the content survives
and only the diff is null. -/
theorem C7_witness :
    processAppeared fs7w "M x" =
      some ⟨appearedPath "x", ChangeType.modified, some "body", none⟩ :=
  (C7_thm fs7w "M x" "M" "x" "body" (by decide) (by decide) (by decide) (by decide)).2
    (by decide) (by decide)

/-! ### Rename-marker lemmas for C8 -/

/-- Unfolding equation of `arrowSplitFirst` on a cons cell. -/
lemma arrowSplitFirst_cons (c : Char) (cs : List Char) :
    arrowSplitFirst (c :: cs) =
      if (c :: cs).take 4 = sepChars then some ([], cs.drop 3)
      else (arrowSplitFirst cs).map (fun p => (c :: p.1, p.2)) := rfl

/-- When the first occurrence of the rename marker in `old ++ sepChars` is
exactly the trailing marker, appending more text keeps the first split at
the same place: `old ++ " -> " ++ m` splits into `old` and `m`. -/
lemma arrowSplitFirst_append (m : List Char) :
    ∀ old : List Char, arrowSplitFirst (old ++ sepChars) = some (old, []) →
      arrowSplitFirst (old ++ (sepChars ++ m)) = some (old, m) := by
  intro old
  induction old with
  | nil =>
    intro _
    show arrowSplitFirst (' ' :: '-' :: '>' :: ' ' :: m) = some ([], m)
    simp [arrowSplitFirst_cons, sepChars]
  | cons c cs ih =>
    intro h
    rw [show ((c :: cs) ++ sepChars) = c :: (cs ++ sepChars) from rfl,
      arrowSplitFirst_cons] at h
    by_cases ht : (c :: (cs ++ sepChars)).take 4 = sepChars
    · rw [if_pos ht] at h
      exfalso
      simp only [Option.some.injEq, Prod.mk.injEq] at h
      exact List.noConfusion h.1
    · rw [if_neg ht] at h
      cases hi : arrowSplitFirst (cs ++ sepChars) with
      | none =>
        rw [hi] at h
        simp at h
      | some p =>
        obtain ⟨p1, p2⟩ := p
        rw [hi] at h
        simp only [Option.map_some', Option.some.injEq, Prod.mk.injEq,
          List.cons.injEq] at h
        obtain ⟨⟨-, hp1⟩, hp2⟩ := h
        have hi2 : arrowSplitFirst (cs ++ sepChars) = some (cs, []) := by
          rw [hi, hp1, hp2]
        have ih2 := ih hi2
        rw [show ((c :: cs) ++ (sepChars ++ m)) = c :: (cs ++ (sepChars ++ m)) from rfl,
          arrowSplitFirst_cons]
        have htake : (c :: (cs ++ (sepChars ++ m))).take 4 = (c :: (cs ++ sepChars)).take 4 := by
          rw [show c :: (cs ++ (sepChars ++ m)) = (c :: (cs ++ sepChars)) ++ m by simp]
          apply List.take_append_of_le_length
          simp [sepChars]
        rw [if_neg (fun hx => ht (htake ▸ hx))]
        rw [ih2]
        simp

/-- Path normalisation on a rest whose quoted-stripped form is
`old ++ " -> " ++ new` with `old` marker-clean on the left and `new`
marker-free: the appeared side takes `new`, the vanished side `old`. -/
lemma arrow_paths (rest old new : String)
    (hpath : stripQuotes (pyStrip rest) = ⟨old.toList ++ (sepChars ++ new.toList)⟩)
    (hold : arrowSplitFirst (old.toList ++ sepChars) = some (old.toList, []))
    (hnew : arrowSplitFirst new.toList = none) :
    appearedPath rest = new ∧ vanishedPathOf rest = old := by
  have h1 : arrowSplitFirst (old.toList ++ (sepChars ++ new.toList)) =
      some (old.toList, new.toList) :=
    arrowSplitFirst_append new.toList old.toList hold
  have htl : (⟨old.toList ++ (sepChars ++ new.toList)⟩ : String).toList =
      old.toList ++ (sepChars ++ new.toList) := rfl
  have hmkn : (⟨new.toList⟩ : String) = new := rfl
  have hmko : (⟨old.toList⟩ : String) = old := rfl
  constructor
  · rw [appearedPath, hpath]
    simp only [hasArrow, htl, h1, Option.isSome_some, if_true]
    rw [arrowRight]
    simp only [htl, h1, hnew]
    exact hmkn
  · rw [vanishedPathOf, hpath]
    simp only [hasArrow, htl, h1, Option.isSome_some, if_true]
    rw [arrowLeft]
    simp only [htl, h1]
    exact hmko

/-- C8: for a status line whose normalised raw path is
`old ++ " -> " ++ new` (with the marker occurring nowhere else), any record
the appeared loop builds from the line carries the right-hand path `new`
as filename, while the vanished loop's deletion bookkeeping uses the
left-hand path `old`. -/
theorem C8_thm (fs : FS) (line code rest old new : String)
    (hsplit : splitMax1 line = some (code, rest))
    (hpath : stripQuotes (pyStrip rest) = ⟨old.toList ++ (sepChars ++ new.toList)⟩)
    (hold : arrowSplitFirst (old.toList ++ sepChars) = some (old.toList, []))
    (hnew : arrowSplitFirst new.toList = none) :
    (∀ r : ChangeRecord, processAppeared fs line = some r → r.filename = new) ∧
    (∀ p : String, vanishedPath line = some p → p = old) := by
  obtain ⟨hap, hvp⟩ := arrow_paths rest old new hpath hold hnew
  constructor
  · intro r hr
    obtain ⟨code2, rest2, hs2, hf, -⟩ := processAppeared_shape fs line r hr
    have hpr : (code, rest) = (code2, rest2) := by
      have := hsplit.symm.trans hs2
      exact Option.some.inj this
    obtain ⟨-, hrest⟩ := Prod.mk.injEq .. ▸ hpr
    rw [hf, ← hrest, hap]
  · intro p hp
    by_cases hq : startsQQ line
    · simp [vanishedPath, hq] at hp
    · simp only [vanishedPath, hq, Bool.false_eq_true, if_false, hsplit] at hp
      rw [← Option.some.inj hp, hvp]

/-- C8 witness: the rename-style line `M a -> b` is classified with
filename `b` on the appeared side and path `a` on the vanished side. -/
theorem C8_witness : vanishedPathOf "a -> b" = "a" ∧ appearedPath "a -> b" = "b" := by
  have h := C8_thm fsNone "M a -> b" "M" "a -> b" "a" "b" (by decide) (by decide)
    (by decide) (by decide)
  refine ⟨h.2 (vanishedPathOf "a -> b") ?_, ?_⟩
  · decide
  · have := h.1 ⟨appearedPath "a -> b", ChangeType.modified, none, none⟩ (by decide)
    exact this

/-- C9 (counterexample): with appeared entries `D a` then `M b`, the
appeared loop emits the deleted record for `a` before the modified record
for `b`, so a deleted record precedes an added/modified record in the
assembled ChangeSet, refuting the claim that all added and modified
records precede all deleted records. -/
theorem C9_cex :
    (assemble fsNone [] ["D a", "M b"]).map ChangeRecord.change_type =
      [ChangeType.deleted, ChangeType.modified] := by
  decide

/-- C9 (amended): the assembled ChangeSet is the concatenation of the
records built from the appeared entries, in iteration order — these may
themselves include deleted records from D-coded entries — followed by the
deleted records emitted by the vanished pass. -/
theorem C9_thm (fs : FS) (before after : List String) :
    ∃ ds : List ChangeRecord,
      assemble fs before after = appearedRecords fs before after ++ ds ∧
      ∀ r ∈ ds, r.change_type = ChangeType.deleted := by
  obtain ⟨ds, heq, hds⟩ :=
    foldl_stepVanished fs (setDiff before after) (appearedRecords fs before after)
  exact ⟨ds, heq, fun r hr => (hds r hr).1⟩

/-- C9 witness: the snapshot pair before = {`M x`}, after = {} assembles
to the appeared block (empty) followed by the vanished-pass deleted
record. -/
theorem C9_witness :
    assemble fsNone ["M x"] [] =
      appearedRecords fsNone ["M x"] [] ++ [⟨"x", ChangeType.deleted, none, none⟩] := by
  obtain ⟨ds, h1, h2⟩ := C9_thm fsNone ["M x"] []
  have h4 : appearedRecords fsNone ["M x"] [] = [] := by decide
  have h5 : assemble fsNone ["M x"] [] = [⟨"x", ChangeType.deleted, none, none⟩] := by decide
  have hds : ds = [⟨"x", ChangeType.deleted, none, none⟩] := by
    have h6 := h1
    rw [h4, List.nil_append] at h6
    rw [← h6]
    exact h5
  rw [h1, hds]

end AiderWrapper
